import Mathlib

/-!
Shallow embedding of the markdown-to-Word converter in `src/app.py`
(functions `create_word_document`, `create_word_table`,
`parse_inline_formatting`), together with proofs about the claims of the
specification.  Strings are modelled as `List Char`; the generated Word
document is modelled as a list of typed blocks.  Python's `datetime.now()`
timestamp is modelled as an explicit parameter `ts` of the document builder.
-/

/-- Run style of a text run, as produced by `parse_inline_formatting`
(`'normal'` / `'bold'` tags in the Python tuples). -/
inductive Style where
  | normal : Style
  | bold : Style
  deriving DecidableEq

/-- One formatted segment: a `(style, text)` pair, mirroring the Python
tuples `('normal', text)` / `('bold', text)`. -/
abbrev Seg := Style × List Char

/-- One block of the generated Word document.  `heading` keeps the raw text
passed to `doc.add_heading`; list items and paragraphs keep the formatted
runs added by `add_formatted_text`; `table` keeps the grid of cells, each
cell being a list of runs. -/
inductive Block where
  | heading (level : Nat) (text : List Char)
  | bullet (segs : List Seg)
  | numbered (segs : List Seg)
  | para (segs : List Seg)
  | table (rows : List (List (List Seg)))
  deriving DecidableEq

/-- Python `str.strip` whitespace test (ASCII whitespace characters). -/
def isSpaceC (c : Char) : Bool :=
  c == ' ' || c == '\t' || c == '\n' || c == '\r' || c == '\x0b' || c == '\x0c'

/-- Python `str.strip()`: drop whitespace from both ends. -/
def strip (s : List Char) : List Char :=
  ((s.dropWhile isSpaceC).reverse.dropWhile isSpaceC).reverse

/-- `pat` occurs at the start of `s` (Python `str.startswith`). -/
def startsWith : List Char → List Char → Bool
  | [], _ => true
  | _ :: _, [] => false
  | p :: ps, c :: cs => p == c && startsWith ps cs

/-- Python `str.split(sep)` for a one-character separator: the list of
fields between occurrences of `sep` (always nonempty; `''.split(c) = ['']`). -/
def splitChar (sep : Char) : List Char → List (List Char)
  | [] => [[]]
  | c :: cs =>
    if c == sep then [] :: splitChar sep cs
    else
      match splitChar sep cs with
      | [] => [[c]]
      | f :: rest => (c :: f) :: rest

/-- Python `str.find(pat, 0)`: index of the first occurrence of `pat` in
`s`, or `none` (Python returns `-1`). -/
def findPat (pat : List Char) : List Char → Option Nat
  | [] => if pat.isEmpty then some 0 else none
  | c :: cs =>
    if startsWith pat (c :: cs) then some 0
    else (findPat pat cs).map (· + 1)

/-- The two-character bold marker `**`. -/
def starM : List Char := ['*', '*']

theorem startsWith_length_le : ∀ pat s : List Char,
    startsWith pat s = true → pat.length ≤ s.length := by
  intro pat
  induction pat with
  | nil => intro s _; simp
  | cons p ps ih =>
    intro s h
    cases s with
    | nil => simp [startsWith] at h
    | cons c cs =>
      simp only [startsWith, Bool.and_eq_true] at h
      simpa using Nat.succ_le_succ (ih cs h.2)

theorem findPat_le : ∀ (pat s : List Char) (p : Nat),
    findPat pat s = some p → p + pat.length ≤ s.length := by
  intro pat s
  induction s with
  | nil =>
    intro p h
    simp only [findPat] at h
    by_cases hp : pat.isEmpty
    · simp [hp] at h
      subst h
      simp [List.isEmpty_iff.mp hp]
    · simp [hp] at h
  | cons c cs ih =>
    intro p h
    simp only [findPat] at h
    by_cases hs : startsWith pat (c :: cs) = true
    · simp [hs] at h
      subst h
      simpa using startsWith_length_le pat (c :: cs) hs
    · simp [hs, Option.map_eq_some'] at h
      obtain ⟨q, hq, rfl⟩ := h
      have := ih q hq
      simp only [List.length_cons]
      omega

/-- `parse_inline_formatting` from `src/app.py`: scan for `**` markers and
produce the list of `(style, text)` segments.  The Python loop keeps an
absolute cursor `current_pos` into the string; here each recursive call
works on the suffix from the cursor, which is equivalent because
`text.find('**', current_pos)` only looks at indices ≥ `current_pos`. -/
def parse_inline_formatting (text : List Char) : List Seg :=
  match hfind : findPat starM text with
  | none =>
    -- no more bold text, add remaining as normal (if any)
    if text.isEmpty then [] else [(Style.normal, text)]
  | some p =>
    -- text before the marker becomes a normal segment (omitted when empty)
    let pre : List Seg := if 0 < p then [(Style.normal, text.take p)] else []
    match findPat starM (text.drop (p + 2)) with
    | none =>
      -- no closing **, treat the rest (marker included) as normal text
      pre ++ [(Style.normal, text.drop p)]
    | some q =>
      pre ++ (Style.bold, (text.drop (p + 2)).take q)
        :: parse_inline_formatting ((text.drop (p + 2)).drop (q + 2))
termination_by text.length
decreasing_by
  have h1 := findPat_le starM text p hfind
  simp only [starM, List.length_cons, List.length_nil] at h1
  simp only [List.length_drop]
  omega

/-- Python `s.replace(pat, '')`: delete the leftmost occurrence of `pat`
and continue after it, repeatedly. -/
def removeAll (pat : List Char) (s : List Char) : List Char :=
  if hp : pat.isEmpty then s
  else
    match hfind : findPat pat s with
    | none => s
    | some p => s.take p ++ removeAll pat (s.drop (p + pat.length))
termination_by s.length
decreasing_by
  have h1 := findPat_le pat s p hfind
  have h2 : 0 < pat.length := by
    cases pat with
    | nil => simp at hp
    | cons a l => simp
  simp only [List.length_drop]
  omega

/-- The scan of `parse_inline_formatting` never hits an opening `**`
without a later closing `**` (the "balanced markers" side condition of the
spec, phrased on the code's own left-to-right scan). -/
def balancedBold (s : List Char) : Bool :=
  match hfind : findPat starM s with
  | none => true
  | some p =>
    match findPat starM (s.drop (p + 2)) with
    | none => false
    | some q => balancedBold ((s.drop (p + 2)).drop (q + 2))
termination_by s.length
decreasing_by
  have h1 := findPat_le starM s p hfind
  simp only [starM, List.length_cons, List.length_nil] at h1
  simp only [List.length_drop]
  omega

/-- Concatenation, in order, of the `text` fields of a segment list. -/
def segsText (ss : List Seg) : List Char :=
  (ss.map Prod.snd).flatten

/-- Cell extraction of `create_word_table`:
`[cell.strip() for cell in line.split('|')[1:-1]]`. -/
def parseCells (line : List Char) : List (List Char) :=
  (((splitChar '|' line).drop 1).dropLast).map strip

/-- The `table_data` accumulated by `create_word_table`: cell rows of the
table lines, rows with no cells skipped (`if cells:`). -/
def tableData (tls : List (List Char)) : List (List (List Char)) :=
  (tls.map parseCells).filter (fun cs => !cs.isEmpty)

/-- Content of one table cell: `parse_inline_formatting(cell_data)`, with
every run made bold when the cell belongs to the header row
(`if row_idx == 0: run.bold = True`). -/
def formatCell (cd : List Char) (hdr : Bool) : List Seg :=
  let segs := parse_inline_formatting cd
  if hdr then segs.map (fun s => (Style.bold, s.2)) else segs

/-- Inner fill loop of `create_word_table`: write the cells of one source
row into the (pre-created) row of the Word table, skipping writes past the
end of the row (`if col_idx < len(table.rows[row_idx].cells)`). -/
def fillRow (row : List (List Seg)) (ci : Nat) (rd : List (List Char))
    (hdr : Bool) : List (List Seg) :=
  match rd with
  | [] => row
  | cd :: rest =>
    fillRow (if ci < row.length then row.set ci (formatCell cd hdr) else row)
      (ci + 1) rest hdr

/-- Outer fill loop of `create_word_table`: fill each pre-created grid row
from the corresponding source row (`for row_idx, row_data in
enumerate(table_data)`). -/
def fillGrid (grid : List (List (List Seg))) (ri : Nat)
    (data : List (List (List Char))) : List (List (List Seg)) :=
  match data with
  | [] => grid
  | rd :: rest =>
    fillGrid (grid.set ri (fillRow (grid.getD ri []) 0 rd (ri == 0)))
      (ri + 1) rest

/-- `create_word_table` from `src/app.py`, as the table grid it builds, or
`none` when it returns without adding a table (`doc.add_table(rows, cols)`
creates a grid of `rows × cols` empty cells which the loops then fill). -/
def create_word_table (tls : List (List Char)) :
    Option (List (List (List Seg))) :=
  if tls.isEmpty then none
  else
    let td := tableData tls
    if td.isEmpty then none
    else
      let rows := td.length
      let cols := td.headI.length
      if rows == 0 || cols == 0 then none
      else some (fillGrid (List.replicate rows (List.replicate cols [])) 0 td)

/-- The document blocks contributed by a call to `create_word_table`: the
table (when one is built) followed by the spacing paragraph
`doc.add_paragraph("")` that the function adds after filling the table. -/
def createWordTableBlocks (tls : List (List Char)) : List Block :=
  match create_word_table tls with
  | none => []
  | some tbl => [Block.table tbl, Block.para []]

/-- Separator-row character test of the assembler:
`all(c in '|:-= ' for c in table_line)`. -/
def isSepChar (c : Char) : Bool :=
  c == '|' || c == ':' || c == '-' || c == '=' || c == ' '

/-- The digit prefixes accepted by the numbered-list branch
(`line.startswith(('1.', ..., '9.'))`). -/
def digits19 : List Char := ['1', '2', '3', '4', '5', '6', '7', '8', '9']

/-- Numbered-list test of the classifier. -/
def startsNumbered (line : List Char) : Bool :=
  digits19.any (fun d => startsWith [d, '.'] line)

/-- Everything after the first `.` of the line
(`line.split('.', 1)[1]`). -/
def afterDot : List Char → List Char
  | [] => []
  | c :: cs => if c == '.' then cs else afterDot cs

/-- Text of a numbered item:
`line.split('.', 1)[1].strip() if '.' in line else line`. -/
def numText (line : List Char) : List Char :=
  if line.contains '.' then strip (afterDot line) else line

/-- Per-line dispatch of `create_word_document` for a (stripped, nonblank,
non-table) line: headings, bullets, numbered items, plain paragraphs. -/
def classifyLine (line : List Char) : Block :=
  if startsWith ("###".toList) line then
    Block.heading 3 (strip (removeAll ("###".toList) line))
  else if startsWith ("##".toList) line then
    Block.heading 2 (strip (removeAll ("##".toList) line))
  else if startsWith ("#".toList) line then
    Block.heading 1 (strip (removeAll ("#".toList) line))
  else if startsWith ("*".toList) line || startsWith ("-".toList) line then
    Block.bullet (parse_inline_formatting (strip (line.drop 1)))
  else if startsNumbered line then
    Block.numbered (parse_inline_formatting (numText line))
  else
    Block.para (parse_inline_formatting line)

/-- Table-run entry test: `line.startswith('|') and '|' in line[1:]`
(evaluated on the stripped line). -/
def tableStart (line : List Char) : Bool :=
  startsWith ("|".toList) line && (line.drop 1).contains '|'

/-- Table-run continuation test: `lines[j].strip().startswith('|')`. -/
def tableCont (x : List Char) : Bool :=
  startsWith ("|".toList) (strip x)

theorem dropWhile_cons_lt (p : List Char → Bool) (l : List Char)
    (ls : List (List Char)) (h : p l = true) :
    ((l :: ls).dropWhile p).length < (l :: ls).length := by
  rw [List.dropWhile_cons, if_pos h]
  have := (List.dropWhile_sublist (p := p) (l := ls)).length_le
  simp only [List.length_cons]
  omega

/-- The `while i < len(lines)` loop of `create_word_document`: blank lines
are skipped, a line that starts a table run consumes the whole run
(separator rows filtered out) and contributes the blocks of
`create_word_table`, every other line contributes one classified block. -/
def assembleLines (lines : List (List Char)) : List Block :=
  match lines with
  | [] => []
  | l :: ls =>
    if (strip l).isEmpty then assembleLines ls
    else if h : tableStart (strip l) = true then
      createWordTableBlocks
        ((((l :: ls).takeWhile tableCont).map strip).filter
          (fun t => !(t.all isSepChar)))
        ++ assembleLines ((l :: ls).dropWhile tableCont)
    else
      classifyLine (strip l) :: assembleLines ls
termination_by lines.length
decreasing_by
  · simp only [List.length_cons]
    omega
  · apply dropWhile_cons_lt
    simp only [tableStart, Bool.and_eq_true] at h
    simpa [tableCont] using h.1
  · simp only [List.length_cons]
    omega

/-- The fixed preamble that `create_word_document` adds before parsing the
input: the title heading, the `Generated on:` timestamp paragraph, an
empty spacing paragraph, and the `Extracted Content` heading. -/
def preambleBlocks (ts : List Char) : List Block :=
  [Block.heading 0 ("Extracted Text Document".toList),
   Block.para [(Style.normal, ("Generated on: ".toList) ++ ts)],
   Block.para [],
   Block.heading 1 ("Extracted Content".toList)]

/-- `create_word_document` from `src/app.py`, as the block sequence of the
document it saves.  `ts` is the string produced from `datetime.now()`
(state outside the input, made explicit). -/
def create_word_document (ts : List Char) (text : List Char) : List Block :=
  preambleBlocks ts ++ assembleLines (splitChar '\n' text)

/-- Number of non-blank lines of the input. -/
def nonBlankCount (lines : List (List Char)) : Nat :=
  (lines.filter (fun l => !(strip l).isEmpty)).length

/-- Heading text as the claim describes it: the line with exactly its
leading run of `#` characters and surrounding whitespace removed (the code
instead removes every occurrence of the marker substring). -/
def specHeadingText (line : List Char) : List Char :=
  strip (line.dropWhile (fun c => c == '#'))

/-- Every table block of the list is immediately followed by an empty
paragraph (the spacing paragraph added after each table). -/
def tableSpaced (bs : List Block) : Prop :=
  ∀ (i : Nat) (tbl : List (List (List Seg))),
    bs[i]? = some (Block.table tbl) → bs[i + 1]? = some (Block.para [])

/-! Unfolding equations for the well-founded definitions. -/

theorem parse_star_none (t : List Char) (h : findPat starM t = none) :
    parse_inline_formatting t = if t.isEmpty then [] else [(Style.normal, t)] := by
  unfold parse_inline_formatting
  split
  · rfl
  · rename_i p hp
    rw [h] at hp
    cases hp

theorem parse_star_fallback (t : List Char) (p : Nat)
    (h1 : findPat starM t = some p)
    (h2 : findPat starM (t.drop (p + 2)) = none) :
    parse_inline_formatting t =
      (if 0 < p then [(Style.normal, t.take p)] else [])
        ++ [(Style.normal, t.drop p)] := by
  unfold parse_inline_formatting
  split
  · rename_i hp
    rw [h1] at hp
    cases hp
  · rename_i p' hp
    rw [h1] at hp
    cases hp
    rw [h2]

theorem parse_star_step (t : List Char) (p q : Nat)
    (h1 : findPat starM t = some p)
    (h2 : findPat starM (t.drop (p + 2)) = some q) :
    parse_inline_formatting t =
      (if 0 < p then [(Style.normal, t.take p)] else [])
        ++ (Style.bold, (t.drop (p + 2)).take q)
          :: parse_inline_formatting ((t.drop (p + 2)).drop (q + 2)) := by
  conv =>
    lhs
    unfold parse_inline_formatting
  split
  · rename_i hp
    rw [h1] at hp
    cases hp
  · rename_i p' hp
    rw [h1] at hp
    cases hp
    rw [h2]

theorem removeAll_star_none (t : List Char) (h : findPat starM t = none) :
    removeAll starM t = t := by
  unfold removeAll
  rw [dif_neg (by simp [starM])]
  split
  · rfl
  · rename_i p hp
    rw [h] at hp
    cases hp

theorem removeAll_star_some (t : List Char) (p : Nat)
    (h : findPat starM t = some p) :
    removeAll starM t = t.take p ++ removeAll starM (t.drop (p + 2)) := by
  conv =>
    lhs
    unfold removeAll
  rw [dif_neg (by simp [starM])]
  split
  · rename_i hp
    rw [h] at hp
    cases hp
  · rename_i p' hp
    rw [h] at hp
    cases hp
    rfl

theorem balanced_star_none (t : List Char) (h : findPat starM t = none) :
    balancedBold t = true := by
  unfold balancedBold
  split
  · rfl
  · rename_i p hp
    rw [h] at hp
    cases hp

theorem balanced_star_fallback (t : List Char) (p : Nat)
    (h1 : findPat starM t = some p)
    (h2 : findPat starM (t.drop (p + 2)) = none) :
    balancedBold t = false := by
  unfold balancedBold
  split
  · rename_i hp
    rw [h1] at hp
    cases hp
  · rename_i p' hp
    rw [h1] at hp
    cases hp
    rw [h2]

theorem balanced_star_step (t : List Char) (p q : Nat)
    (h1 : findPat starM t = some p)
    (h2 : findPat starM (t.drop (p + 2)) = some q) :
    balancedBold t = balancedBold ((t.drop (p + 2)).drop (q + 2)) := by
  conv =>
    lhs
    unfold balancedBold
  split
  · rename_i hp
    rw [h1] at hp
    cases hp
  · rename_i p' hp
    rw [h1] at hp
    cases hp
    rw [h2]

theorem assembleLines_nil : assembleLines [] = [] := by
  unfold assembleLines
  rfl

theorem assembleLines_blank (l : List Char) (ls : List (List Char))
    (h : (strip l).isEmpty = true) :
    assembleLines (l :: ls) = assembleLines ls := by
  conv =>
    lhs
    unfold assembleLines
  rw [if_pos h]

theorem assembleLines_table (l : List Char) (ls : List (List Char))
    (h1 : ¬ (strip l).isEmpty = true) (h2 : tableStart (strip l) = true) :
    assembleLines (l :: ls) =
      createWordTableBlocks
        ((((l :: ls).takeWhile tableCont).map strip).filter
          (fun t => !(t.all isSepChar)))
        ++ assembleLines ((l :: ls).dropWhile tableCont) := by
  conv =>
    lhs
    unfold assembleLines
  rw [if_neg h1, dif_pos h2]

theorem assembleLines_classify (l : List Char) (ls : List (List Char))
    (h1 : ¬ (strip l).isEmpty = true) (h2 : ¬ tableStart (strip l) = true) :
    assembleLines (l :: ls) = classifyLine (strip l) :: assembleLines ls := by
  conv =>
    lhs
    unfold assembleLines
  rw [if_neg h1, dif_neg h2]

/-! Claim C10: cell extraction drops the field after the last `|`. -/

theorem splitChar_ne_nil (sep : Char) (l : List Char) :
    splitChar sep l ≠ [] := by
  induction l with
  | nil => simp [splitChar]
  | cons c cs ih =>
    simp only [splitChar]
    split
    · simp
    · split
      · simp
      · simp

theorem length_splitChar (sep : Char) (l : List Char) :
    (splitChar sep l).length = l.count sep + 1 := by
  induction l with
  | nil => simp [splitChar]
  | cons c cs ih =>
    simp only [splitChar, List.count_cons]
    split
    · rename_i hc
      simp only [List.length_cons, ih, hc]
    · rename_i hc
      have hne := splitChar_ne_nil sep cs
      cases hsc : splitChar sep cs with
      | nil => exact absurd hsc hne
      | cons f rest =>
        rw [hsc] at ih
        simp only [List.length_cons] at ih
        simp only [List.length_cons, ih, hc]

theorem parseCells_length (l : List Char) :
    (parseCells l).length = l.count '|' - 1 := by
  simp only [parseCells, List.length_map, List.length_dropLast,
    List.length_drop, length_splitChar]
  omega

/-- C10: for every table line, splitting on `|` and discarding the first
and last fields yields `count('|') - 1` cells, so the text after the last
`|` never becomes a cell: `"| a | b"` yields the single cell `"a"` (its
non-empty final field `" b"` is dropped), and a line containing exactly
one `|` yields zero cells. -/
theorem c10_last_field_dropped :
    (∀ l : List Char, (parseCells l).length = l.count '|' - 1) ∧
    parseCells ("| a | b".toList) = ["a".toList] ∧
    (∀ l : List Char, l.count '|' = 1 → parseCells l = []) := by
  refine ⟨parseCells_length, by decide, ?_⟩
  intro l hc
  have h1 := parseCells_length l
  rw [hc] at h1
  exact List.length_eq_zero.mp h1

/-- Witness for C10: a line containing exactly one `|` yields zero cells. -/
theorem c10_witness : parseCells ("|x".toList) = [] :=
  c10_last_field_dropped.2.2 ("|x".toList) (by decide)

/-! Claim C8: determinism and the timestamp. -/

/-- C8 counterexample: the same input string converted at two different
clock readings (the `datetime.now()` value, state outside the input)
yields two different documents, so the conversion is not a function of
the input string alone. -/
theorem c8_counterexample :
    create_word_document ("2024-01-01 00:00:00".toList) ("".toList) ≠
      create_word_document ("2024-01-02 00:00:00".toList) ("".toList) := by
  intro h
  simp only [create_word_document, preambleBlocks] at h
  simp at h

/-- C8 (amended): the conversion is deterministic given the input string
and the generation timestamp — same input and same clock reading give the
identical document — and every block except the timestamp paragraph
(block index 1) is independent of the clock. -/
theorem c8_deterministic : ∀ ts ts' text : List Char,
    create_word_document ts text = create_word_document ts text ∧
    (create_word_document ts text).eraseIdx 1 =
      (create_word_document ts' text).eraseIdx 1 := by
  intro ts ts' text
  exact ⟨rfl, rfl⟩

/-! Claim C2: balanced round-trip of the inline formatter. -/

theorem segsText_nil : segsText [] = [] := rfl

theorem segsText_cons (s : Seg) (ss : List Seg) :
    segsText (s :: ss) = s.2 ++ segsText ss := by
  simp [segsText]

theorem segsText_append (a b : List Seg) :
    segsText (a ++ b) = segsText a ++ segsText b := by
  simp [segsText]

theorem segsText_pre (t : List Char) (p : Nat) :
    segsText (if 0 < p then [(Style.normal, t.take p)] else []) = t.take p := by
  split
  · simp [segsText]
  · rename_i hp
    have : p = 0 := by omega
    simp [this, segsText]

theorem c2_aux : ∀ (n : Nat) (t : List Char), t.length ≤ n →
    balancedBold t = true →
    segsText (parse_inline_formatting t) = removeAll starM t := by
  intro n
  induction n with
  | zero =>
    intro t ht _
    have h0 : t = [] := List.length_eq_zero.mp (Nat.le_zero.mp ht)
    subst h0
    have hf : findPat starM [] = none := by decide
    rw [parse_star_none [] hf, removeAll_star_none [] hf]
    simp [segsText]
  | succ n ih =>
    intro t ht hb
    cases h1 : findPat starM t with
    | none =>
      rw [parse_star_none t h1, removeAll_star_none t h1]
      split
      · rename_i he
        simp only [List.isEmpty_iff] at he
        simp [he, segsText]
      · simp [segsText]
    | some p =>
      cases h2 : findPat starM (t.drop (p + 2)) with
      | none =>
        rw [balanced_star_fallback t p h1 h2] at hb
        cases hb
      | some q =>
        rw [parse_star_step t p q h1 h2, removeAll_star_some t p h1,
          removeAll_star_some (t.drop (p + 2)) q h2]
        rw [segsText_append, segsText_pre, segsText_cons]
        have hlen1 := findPat_le starM t p h1
        have hlen2 := findPat_le starM (t.drop (p + 2)) q h2
        simp only [starM, List.length_cons, List.length_nil] at hlen1 hlen2
        simp only [List.length_drop] at hlen2
        have hrec : ((t.drop (p + 2)).drop (q + 2)).length ≤ n := by
          simp only [List.length_drop]
          omega
        have hbal : balancedBold ((t.drop (p + 2)).drop (q + 2)) = true := by
          rw [← balanced_star_step t p q h1 h2]
          exact hb
        rw [ih ((t.drop (p + 2)).drop (q + 2)) hrec hbal]

/-- C2: when the `**` markers of `t` are balanced (the scan of
`parse_inline_formatting` never meets an opening marker without a later
closing one), concatenating in order the text fields of all returned
segments equals `t` with every `**` marker removed
(Python `t.replace('**', '')`). -/
theorem c2_inline_roundtrip : ∀ t : List Char, balancedBold t = true →
    segsText (parse_inline_formatting t) = removeAll starM t :=
  fun t => c2_aux t.length t le_rfl

/-- Witness for C2 at the balanced input `"a**b**c"`. -/
theorem c2_witness :
    segsText (parse_inline_formatting ("a**b**c".toList)) =
      removeAll starM ("a**b**c".toList) :=
  c2_inline_roundtrip ("a**b**c".toList)
    (by simp [balancedBold, findPat, startsWith, starM])

/-! Claim C4: unmatched opening marker degrades gracefully. -/

theorem findPat_drop_self : ∀ (pat s : List Char) (p : Nat),
    findPat pat s = some p → findPat pat (s.drop p) = some 0 := by
  intro pat s
  induction s with
  | nil =>
    intro p h
    simp only [findPat] at h
    split at h
    · rename_i hp
      cases h
      simpa [findPat, hp] using rfl
    · cases h
  | cons c cs ih =>
    intro p h
    simp only [findPat] at h
    split at h
    · rename_i hs
      cases h
      simpa [findPat, hs] using rfl
    · rename_i hs
      simp only [Option.map_eq_some'] at h
      obtain ⟨q, hq, rfl⟩ := h
      simpa using ih q hq

/-- C4: whenever the scan meets an opening `**` with no later closing
`**` (i.e. the markers are unbalanced), `parse_inline_formatting` ends by
emitting the remainder of the string starting at that opening marker,
markers included, as one final normal segment — and no error is possible
(the function is total); in particular `"a **b c"` yields exactly
`[Normal("a "), Normal("**b c")]`. -/
theorem c4_unmatched_marker :
    (∀ t : List Char, balancedBold t = false →
      ∃ (pre : List Seg) (i : Nat),
        parse_inline_formatting t = pre ++ [(Style.normal, t.drop i)] ∧
        findPat starM (t.drop i) = some 0 ∧
        findPat starM (t.drop (i + 2)) = none) ∧
    parse_inline_formatting ("a **b c".toList) =
      [(Style.normal, "a ".toList), (Style.normal, "**b c".toList)] := by
  constructor
  · suffices H : ∀ (n : Nat) (t : List Char), t.length ≤ n →
        balancedBold t = false →
        ∃ (pre : List Seg) (i : Nat),
          parse_inline_formatting t = pre ++ [(Style.normal, t.drop i)] ∧
          findPat starM (t.drop i) = some 0 ∧
          findPat starM (t.drop (i + 2)) = none by
      exact fun t => H t.length t le_rfl
    intro n
    induction n with
    | zero =>
      intro t ht hb
      have h0 : t = [] := List.length_eq_zero.mp (Nat.le_zero.mp ht)
      subst h0
      rw [balanced_star_none [] (by decide)] at hb
      cases hb
    | succ n ih =>
      intro t ht hb
      cases h1 : findPat starM t with
      | none =>
        rw [balanced_star_none t h1] at hb
        cases hb
      | some p =>
        cases h2 : findPat starM (t.drop (p + 2)) with
        | none =>
          refine ⟨if 0 < p then [(Style.normal, t.take p)] else [], p,
            parse_star_fallback t p h1 h2, findPat_drop_self starM t p h1, h2⟩
        | some q =>
          rw [balanced_star_step t p q h1 h2] at hb
          have hlen1 := findPat_le starM t p h1
          have hlen2 := findPat_le starM (t.drop (p + 2)) q h2
          simp only [starM, List.length_cons, List.length_nil] at hlen1 hlen2
          simp only [List.length_drop] at hlen2
          have hrec : ((t.drop (p + 2)).drop (q + 2)).length ≤ n := by
            simp only [List.length_drop]
            omega
          obtain ⟨pre', i', hparse, hopen, hclose⟩ :=
            ih ((t.drop (p + 2)).drop (q + 2)) hrec hb
          refine ⟨(if 0 < p then [(Style.normal, t.take p)] else [])
              ++ (Style.bold, (t.drop (p + 2)).take q) :: pre',
            p + 2 + q + 2 + i', ?_, ?_, ?_⟩
          · rw [parse_star_step t p q h1 h2, hparse]
            have hd : ((t.drop (p + 2)).drop (q + 2)).drop i' =
                t.drop (p + 2 + q + 2 + i') := by
              rw [List.drop_drop, List.drop_drop]
              congr 1
              omega
            rw [hd] at *
            simp
          · have hd : ((t.drop (p + 2)).drop (q + 2)).drop i' =
                t.drop (p + 2 + q + 2 + i') := by
              rw [List.drop_drop, List.drop_drop]
              congr 1
              omega
            rwa [hd] at hopen
          · have hd : (((t.drop (p + 2)).drop (q + 2))).drop (i' + 2) =
                t.drop (p + 2 + q + 2 + i' + 2) := by
              rw [List.drop_drop, List.drop_drop]
              congr 1
              omega
            rwa [hd] at hclose
  · simp [parse_inline_formatting, findPat, startsWith, starM]

/-- Witness for C4 at the unbalanced input `"**x"`. -/
theorem c4_witness :
    ∃ (pre : List Seg) (i : Nat),
      parse_inline_formatting ("**x".toList) =
        pre ++ [(Style.normal, ("**x".toList).drop i)] ∧
      findPat starM (("**x".toList).drop i) = some 0 ∧
      findPat starM (("**x".toList).drop (i + 2)) = none :=
  c4_unmatched_marker.1 ("**x".toList)
    (by simp [balancedBold, findPat, startsWith, starM])

/-! Claim C3: heading classification and heading text. -/

theorem startsWith_replicate (c : Char) : ∀ (k : Nat) (l : List Char),
    startsWith (List.replicate k c) l = true ↔
      k ≤ (l.takeWhile (fun x => x == c)).length := by
  intro k
  induction k with
  | zero => intro l; simp [startsWith]
  | succ k ih =>
    intro l
    cases l with
    | nil => simp [List.replicate_succ, startsWith]
    | cons x xs =>
      simp only [List.replicate_succ, startsWith, Bool.and_eq_true, beq_iff_eq,
        List.takeWhile_cons]
      by_cases hxc : x = c
      · subst hxc
        rw [if_pos rfl]
        simp only [List.length_cons]
        constructor
        · rintro ⟨-, hsw⟩
          have := (ih xs).mp hsw
          omega
        · intro h
          exact ⟨by trivial, (ih xs).mpr (by omega)⟩
      · rw [if_neg (by simpa using hxc)]
        simp only [List.length_nil]
        constructor
        · rintro ⟨rfl, -⟩
          exact absurd rfl hxc
        · intro h
          omega

theorem classify_title_eval :
    classifyLine ("### Title".toList) = Block.heading 3 ("Title".toList) := by
  simp [classifyLine, startsWith, removeAll, findPat, strip, isSpaceC]

/-- C3 counterexample: on the heading line `"### Title ###"` the code
produces heading text `"Title"` (every occurrence of `###` removed by
`line.replace('###','')`), not `"Title ###"` (only the leading run
removed) as the claim states. -/
theorem c3_counterexample :
    classifyLine ("### Title ###".toList) ≠
      Block.heading 3 (specHeadingText ("### Title ###".toList)) := by
  have e1 : classifyLine ("### Title ###".toList) =
      Block.heading 3 ("Title".toList) := by
    simp [classifyLine, startsWith, removeAll, findPat, strip, isSpaceC]
  have e2 : specHeadingText ("### Title ###".toList) = "Title ###".toList := by
    simp [specHeadingText, strip, isSpaceC]
  rw [e1, e2]
  simp

/-- C3 (amended): a trimmed line whose first character is `#` classifies
as a heading of level `min 3 (length of the leading run of #)`, and its
text is the line with every occurrence of the level's marker substring
(`###`, `##` or `#` respectively) removed and then trimmed — in
particular later `#` runs are also affected, unlike the claim's
leading-run-only stripping; `"### Title"` still yields a level-3 heading
with text `"Title"`, never level 1 or level 2. -/
theorem c3_heading :
    (∀ line : List Char, line ≠ [] → line.headI = '#' →
      classifyLine line =
        Block.heading (min 3 ((line.takeWhile (fun c => c == '#')).length))
          (strip (removeAll
            (List.replicate
              (min 3 ((line.takeWhile (fun c => c == '#')).length)) '#')
            line))) ∧
    classifyLine ("### Title".toList) = Block.heading 3 ("Title".toList) ∧
    (∀ t : List Char,
      classifyLine ("### Title".toList) ≠ Block.heading 1 t ∧
      classifyLine ("### Title".toList) ≠ Block.heading 2 t) := by
  refine ⟨?_, classify_title_eval, ?_⟩
  · intro line hne hhead
    have hrep3 : ("###".toList) = List.replicate 3 '#' := by decide
    have hrep2 : ("##".toList) = List.replicate 2 '#' := by decide
    have hrep1 : ("#".toList) = List.replicate 1 '#' := by decide
    have hrun1 : 1 ≤ (line.takeWhile (fun c => c == '#')).length := by
      cases line with
      | nil => exact absurd rfl hne
      | cons c rest =>
        simp only [List.headI] at hhead
        subst hhead
        simp [List.takeWhile_cons]
    by_cases h3 : startsWith ("###".toList) line = true
    · have hge3 : 3 ≤ (line.takeWhile (fun c => c == '#')).length := by
        rw [hrep3] at h3
        exact (startsWith_replicate '#' 3 line).mp h3
      have hmin : min 3 ((line.takeWhile (fun c => c == '#')).length) = 3 := by
        omega
      rw [hmin, ← hrep3]
      simp only [classifyLine, if_pos h3]
    · by_cases h2 : startsWith ("##".toList) line = true
      · have hge2 : 2 ≤ (line.takeWhile (fun c => c == '#')).length := by
          rw [hrep2] at h2
          exact (startsWith_replicate '#' 2 line).mp h2
        have hlt3 : ¬ 3 ≤ (line.takeWhile (fun c => c == '#')).length := by
          intro hcontra
          exact h3 (by
            rw [hrep3]
            exact (startsWith_replicate '#' 3 line).mpr hcontra)
        have hmin : min 3 ((line.takeWhile (fun c => c == '#')).length) = 2 := by
          omega
        rw [hmin, ← hrep2]
        simp only [classifyLine, if_neg h3, if_pos h2]
      · have h1 : startsWith ("#".toList) line = true := by
          rw [hrep1]
          exact (startsWith_replicate '#' 1 line).mpr hrun1
        have hlt2 : ¬ 2 ≤ (line.takeWhile (fun c => c == '#')).length := by
          intro hcontra
          exact h2 (by
            rw [hrep2]
            exact (startsWith_replicate '#' 2 line).mpr hcontra)
        have hmin : min 3 ((line.takeWhile (fun c => c == '#')).length) = 1 := by
          omega
        rw [hmin, ← hrep1]
        simp only [classifyLine, if_neg h3, if_neg h2, if_pos h1]
  · intro t
    rw [classify_title_eval]
    exact ⟨by simp, by simp⟩

/-- Witness for C3 (amended) at the heading line `"# a"`. -/
theorem c3_witness :
    classifyLine ("# a".toList) =
      Block.heading
        (min 3 ((("# a".toList).takeWhile (fun c => c == '#')).length))
        (strip (removeAll
          (List.replicate
            (min 3 ((("# a".toList).takeWhile (fun c => c == '#')).length)) '#')
          ("# a".toList))) :=
  c3_heading.1 ("# a".toList) (by decide) (by decide)

/-! Claim C7: numbered-item classification. -/

theorem digits19_ne : ∀ d ∈ digits19,
    d ≠ '#' ∧ d ≠ '*' ∧ d ≠ '-' ∧ d ≠ '.' := by decide

theorem startsNumbered_shape (line : List Char) :
    startsNumbered line = true ↔
      ∃ d rest, d ∈ digits19 ∧ line = d :: '.' :: rest := by
  constructor
  · intro h
    simp only [startsNumbered, List.any_eq_true] at h
    obtain ⟨d, hd, hsw⟩ := h
    cases line with
    | nil => simp [startsWith] at hsw
    | cons c1 t =>
      cases t with
      | nil => simp [startsWith] at hsw
      | cons c2 rest =>
        simp only [startsWith, Bool.and_eq_true, beq_iff_eq] at hsw
        obtain ⟨h1, h2, -⟩ := hsw
        exact ⟨d, rest, hd, by rw [← h1, ← h2]⟩
  · rintro ⟨d, rest, hd, rfl⟩
    simp only [startsNumbered, List.any_eq_true]
    exact ⟨d, hd, by simp [startsWith]⟩

theorem classify_numbered_shape (d : Char) (rest : List Char)
    (hd : d ∈ digits19) :
    classifyLine (d :: '.' :: rest) =
      Block.numbered (parse_inline_formatting (strip rest)) := by
  obtain ⟨h1, h2, h3, h4⟩ := digits19_ne d hd
  have e1 : ('#' == d) = false := beq_eq_false_iff_ne.mpr (Ne.symm h1)
  have e2 : ('*' == d) = false := beq_eq_false_iff_ne.mpr (Ne.symm h2)
  have e3 : ('-' == d) = false := beq_eq_false_iff_ne.mpr (Ne.symm h3)
  have e4 : (d == '.') = false := beq_eq_false_iff_ne.mpr h4
  have hn : startsNumbered (d :: '.' :: rest) = true :=
    (startsNumbered_shape (d :: '.' :: rest)).mpr ⟨d, rest, hd, rfl⟩
  simp [classifyLine, startsWith, e1, e2, e3, e4, hn, numText, afterDot,
    List.contains_cons]

/-- C7: a (trimmed, nonblank) line classifies as a numbered item exactly
when its first character is a digit `1`–`9` immediately followed by `.`;
the item text is everything after the first `.`, trimmed and passed
through the inline formatter; a multi-digit prefix such as `"10. item"`
falls through to a plain paragraph. -/
theorem c7_numbered_item :
    (∀ line : List Char,
      ((∃ d rest, d ∈ digits19 ∧ line = d :: '.' :: rest) ↔
        (∃ segs, classifyLine line = Block.numbered segs))) ∧
    (∀ (d : Char) (rest : List Char), d ∈ digits19 →
      classifyLine (d :: '.' :: rest) =
        Block.numbered (parse_inline_formatting (strip rest))) ∧
    classifyLine ("10. item".toList) =
      Block.para (parse_inline_formatting ("10. item".toList)) := by
  refine ⟨?_, classify_numbered_shape, ?_⟩
  · intro line
    constructor
    · rintro ⟨d, rest, hd, rfl⟩
      exact ⟨parse_inline_formatting (strip rest),
        classify_numbered_shape d rest hd⟩
    · rintro ⟨segs, hc⟩
      simp only [classifyLine] at hc
      split_ifs at hc
      all_goals try simp at hc
      exact (startsNumbered_shape line).mp (by assumption)
  · simp [classifyLine, startsWith, startsNumbered, digits19]

/-- Witness for C7: the line `"1. x"` classifies as a numbered item with
text `"x"` inline-formatted. -/
theorem c7_witness :
    classifyLine ('1' :: '.' :: (" x".toList)) =
      Block.numbered (parse_inline_formatting (strip (" x".toList))) :=
  c7_numbered_item.2.1 '1' (" x".toList) (by decide)

/-! Claims C5 and C6: rectangular tables, dropped rows. -/

theorem fillRow_length : ∀ (rd : List (List Char)) (row : List (List Seg))
    (ci : Nat) (hdr : Bool), (fillRow row ci rd hdr).length = row.length := by
  intro rd
  induction rd with
  | nil => intro row ci hdr; rfl
  | cons cd rest ih =>
    intro row ci hdr
    simp only [fillRow]
    rw [ih]
    split
    · simp
    · rfl

theorem fillRow_getElem? : ∀ (rd : List (List Char)) (row : List (List Seg))
    (ci : Nat) (hdr : Bool) (j : Nat),
    (fillRow row ci rd hdr)[j]? =
      if ci ≤ j ∧ j < ci + rd.length ∧ j < row.length then
        some (formatCell (rd.getD (j - ci) []) hdr)
      else row[j]? := by
  intro rd
  induction rd with
  | nil =>
    intro row ci hdr j
    rw [if_neg (by intro hcontra; simp only [List.length_nil] at hcontra; omega)]
    rfl
  | cons cd rest ih =>
    intro row ci hdr j
    simp only [fillRow]
    rw [ih]
    by_cases hlt : ci < row.length
    · rw [if_pos hlt]
      simp only [List.length_set]
      by_cases hj : j = ci
      · subst hj
        rw [if_neg (by omega), if_pos (by simp; omega)]
        rw [List.getElem?_set_self hlt]
        simp
      · by_cases hup : ci + 1 ≤ j
        · by_cases hin : j < ci + 1 + rest.length ∧ j < row.length
          · rw [if_pos ⟨hup, hin.1, hin.2⟩,
              if_pos ⟨by omega, by simp only [List.length_cons]; omega, hin.2⟩]
            have hk : j - ci = (j - (ci + 1)) + 1 := by omega
            rw [hk]
            simp
          · rw [if_neg (by intro hcontra; exact hin ⟨hcontra.2.1, hcontra.2.2⟩),
              if_neg (by intro hcontra; simp only [List.length_cons] at hcontra; omega)]
            exact List.getElem?_set_ne (by omega)
        · rw [if_neg (by omega), if_neg (by omega)]
          exact List.getElem?_set_ne (by omega)
    · rw [if_neg hlt]
      by_cases hup : ci + 1 ≤ j
      · rw [if_neg (by omega), if_neg (by omega)]
      · rw [if_neg (by omega), if_neg (by omega)]

theorem fillGrid_length : ∀ (data : List (List (List Char)))
    (grid : List (List (List Seg))) (ri : Nat),
    (fillGrid grid ri data).length = grid.length := by
  intro data
  induction data with
  | nil => intro grid ri; rfl
  | cons rd rest ih =>
    intro grid ri
    simp only [fillGrid]
    rw [ih]
    simp

theorem fillGrid_getElem? : ∀ (data : List (List (List Char)))
    (grid : List (List (List Seg))) (ri : Nat) (j : Nat),
    (fillGrid grid ri data)[j]? =
      if ri ≤ j ∧ j < ri + data.length ∧ j < grid.length then
        some (fillRow (grid.getD j []) 0 (data.getD (j - ri) []) (j == 0))
      else grid[j]? := by
  intro data
  induction data with
  | nil =>
    intro grid ri j
    rw [if_neg (by intro hcontra; simp only [List.length_nil] at hcontra; omega)]
    rfl
  | cons rd rest ih =>
    intro grid ri j
    simp only [fillGrid]
    rw [ih]
    simp only [List.length_set]
    by_cases hj : j = ri
    · subst hj
      by_cases hlen : j < grid.length
      · rw [if_neg (by omega), if_pos (by simp only [List.length_cons]; omega)]
        rw [List.getElem?_set_self hlen]
        simp [List.getD_eq_getElem?_getD]
      · rw [if_neg (by omega), if_neg (by intro hcontra; exact hlen hcontra.2.2)]
        rw [List.getElem?_eq_none (by simpa using by omega),
          List.getElem?_eq_none (by omega)]
    · by_cases hup : ri + 1 ≤ j
      · by_cases hin : j < ri + 1 + rest.length ∧ j < grid.length
        · rw [if_pos ⟨hup, hin.1, hin.2⟩,
            if_pos ⟨by omega, by simp only [List.length_cons]; omega, hin.2⟩]
          have hgd : (grid.set ri (fillRow (grid.getD ri []) 0 rd (ri == 0))).getD j [] =
              grid.getD j [] := by
            simp only [List.getD_eq_getElem?_getD]
            rw [List.getElem?_set_ne (by omega)]
          rw [hgd]
          have hk : j - ri = (j - (ri + 1)) + 1 := by omega
          rw [hk]
          simp
        · rw [if_neg (by intro hcontra; exact hin ⟨hcontra.2.1, hcontra.2.2⟩),
            if_neg (by intro hcontra; simp only [List.length_cons] at hcontra; omega)]
          exact List.getElem?_set_ne (by omega)
      · rw [if_neg (by omega), if_neg (by omega)]
        exact List.getElem?_set_ne (by omega)

theorem create_word_table_some (tls : List (List Char))
    (tbl : List (List (List Seg)))
    (h : create_word_table tls = some tbl) :
    tbl = fillGrid
        (List.replicate (tableData tls).length
          (List.replicate (tableData tls).headI.length [])) 0 (tableData tls) ∧
    ¬ (tableData tls).isEmpty = true := by
  simp only [create_word_table] at h
  split_ifs at h with he hd hz
  exact ⟨(Option.some.injEq _ _).mp h.symm, hd⟩

theorem create_word_table_none (tls : List (List Char))
    (h : (tableData tls).isEmpty = true) :
    create_word_table tls = none := by
  simp only [create_word_table]
  split_ifs with he hd hz
  all_goals rfl

/-- C5: every table the code emits is rectangular: each row has exactly
the column count of row 0 (`cols = len(table_data[0])`); cell `(r, c)` of
the emitted table is the formatted source cell when source row `r` has a
`c`-th cell (so longer source rows are truncated to `cols` cells) and the
empty cell otherwise (so shorter source rows are padded with empty
cells). -/
theorem c5_rectangular :
    ∀ (tls : List (List Char)) (tbl : List (List (List Seg))),
      create_word_table tls = some tbl →
      tbl.length = (tableData tls).length ∧
      (∀ row ∈ tbl, row.length = (tableData tls).headI.length) ∧
      (∀ r c : Nat, r < tbl.length → c < (tableData tls).headI.length →
        (tbl.getD r []).getD c [] =
          if c < ((tableData tls).getD r []).length then
            formatCell (((tableData tls).getD r []).getD c []) (r == 0)
          else []) := by
  intro tls tbl h
  obtain ⟨rfl, -⟩ := create_word_table_some tls tbl h
  set td := tableData tls with htd
  set cols := td.headI.length with hcols
  set grid0 := List.replicate td.length (List.replicate cols []) with hgrid
  have hglen : grid0.length = td.length := by simp [hgrid]
  have hlen : (fillGrid grid0 0 td).length = td.length := by
    rw [fillGrid_length]
    exact hglen
  have hrow : ∀ r : Nat, r < td.length →
      (fillGrid grid0 0 td)[r]? =
        some (fillRow (List.replicate cols []) 0 (td.getD r []) (r == 0)) := by
    intro r hr
    rw [fillGrid_getElem?]
    rw [if_pos ⟨Nat.zero_le r, by omega, by omega⟩]
    have : grid0.getD r [] = List.replicate cols [] := by
      simp only [List.getD_eq_getElem?_getD, hgrid]
      rw [List.getElem?_replicate, if_pos hr]
      rfl
    rw [this]
    simp
  refine ⟨hlen, ?_, ?_⟩
  · intro row hrow_mem
    obtain ⟨r, hr, hget⟩ := List.mem_iff_getElem.mp hrow_mem
    have hr' : r < td.length := by omega
    have := hrow r hr'
    rw [List.getElem?_eq_getElem hr, hget] at this
    have hroweq := (Option.some.injEq _ _).mp this
    rw [hroweq, fillRow_length]
    simp
  · intro r c hr hc
    have hr' : r < td.length := by omega
    have hget := hrow r hr'
    have hgetd : (fillGrid grid0 0 td).getD r [] =
        fillRow (List.replicate cols []) 0 (td.getD r []) (r == 0) := by
      rw [List.getD_eq_getElem?_getD, hget]
      rfl
    rw [hgetd]
    rw [List.getD_eq_getElem?_getD, fillRow_getElem?]
    by_cases hin : c < (td.getD r []).length
    · rw [if_pos ⟨Nat.zero_le c, by omega, by simp only [List.length_replicate]; omega⟩]
      rw [if_pos hin]
      simp
    · rw [if_neg (by intro hcontra; omega), if_neg hin]
      rw [List.getElem?_replicate, if_pos hc]
      rfl

/-- Witness for C5 on the irregular table
`["| a |", "| b | c |"]` (second row truncated to the single header
column). -/
theorem c5_witness :
    ([[[(Style.bold, "a".toList)]],
      [[(Style.normal, "b".toList)]]].length =
        (tableData [("| a |".toList), ("| b | c |".toList)]).length) ∧
    (∀ row ∈ [[[(Style.bold, "a".toList)]], [[(Style.normal, "b".toList)]]],
      row.length =
        (tableData [("| a |".toList), ("| b | c |".toList)]).headI.length) ∧
    (∀ r c : Nat,
      r < [[[(Style.bold, "a".toList)]], [[(Style.normal, "b".toList)]]].length →
      c < (tableData [("| a |".toList), ("| b | c |".toList)]).headI.length →
      (([[[(Style.bold, "a".toList)]],
          [[(Style.normal, "b".toList)]]].getD r []).getD c []) =
        if c < ((tableData [("| a |".toList), ("| b | c |".toList)]).getD r
            []).length then
          formatCell
            (((tableData [("| a |".toList), ("| b | c |".toList)]).getD r
              []).getD c []) (r == 0)
        else []) :=
  c5_rectangular [("| a |".toList), ("| b | c |".toList)]
    [[[(Style.bold, "a".toList)]], [[(Style.normal, "b".toList)]]]
    (by simp [create_word_table, tableData, parseCells, splitChar, strip,
      isSpaceC, fillGrid, fillRow, formatCell, parse_inline_formatting,
      findPat, startsWith, starM])

/-- C6: a table line yielding zero cells contributes no row (the emitted
table has exactly one row per line with a nonzero cell count), and when
every line yields zero cells no table is emitted at all (no blocks are
appended); neither case is an error. -/
theorem c6_zero_cell_lines :
    ∀ tls : List (List Char),
      ((∀ l ∈ tls, parseCells l = []) →
        create_word_table tls = none ∧ createWordTableBlocks tls = []) ∧
      (∀ tbl, create_word_table tls = some tbl →
        tbl.length =
          (tls.filter (fun l => !(parseCells l).isEmpty)).length) := by
  intro tls
  constructor
  · intro hall
    have htd : tableData tls = [] := by
      simp only [tableData]
      rw [List.filter_eq_nil_iff]
      intro cs hcs
      obtain ⟨l, hl, rfl⟩ := List.mem_map.mp hcs
      simp [hall l hl]
    have hnone : create_word_table tls = none :=
      create_word_table_none tls (by simp [htd])
    exact ⟨hnone, by simp [createWordTableBlocks, hnone]⟩
  · intro tbl h
    obtain ⟨rfl, -⟩ := create_word_table_some tls tbl h
    rw [fillGrid_length]
    simp only [List.length_replicate, tableData]
    rw [List.filter_map]
    simp only [List.length_map]
    rfl

/-- Witness for C6: a run of lines each yielding zero cells emits
nothing, and the two-line table `["| a |", "|"]` keeps only the row of
the line with cells. -/
theorem c6_witness :
    (create_word_table [("|".toList)] = none ∧
      createWordTableBlocks [("|".toList)] = []) ∧
    ([[[(Style.bold, "a".toList)]]].length =
      ([("| a |".toList), ("|".toList)].filter
        (fun l => !(parseCells l).isEmpty)).length) :=
  ⟨(c6_zero_cell_lines [("|".toList)]).1 (by decide),
    (c6_zero_cell_lines [("| a |".toList), ("|".toList)]).2
      [[[(Style.bold, "a".toList)]]]
      (by simp [create_word_table, tableData, parseCells, splitChar, strip,
        isSpaceC, fillGrid, fillRow, formatCell, parse_inline_formatting,
        findPat, startsWith, starM])⟩

/-! Claim C1: block-count bound of the assembly phase. -/

theorem createWordTableBlocks_len (tls : List (List Char)) :
    (createWordTableBlocks tls).length ≤ 2 := by
  simp only [createWordTableBlocks]
  split <;> simp

theorem assemble_bound : ∀ (n : Nat) (lines : List (List Char)),
    lines.length ≤ n →
    (assembleLines lines).length ≤ 2 * nonBlankCount lines := by
  intro n
  induction n with
  | zero =>
    intro lines h
    have h0 : lines = [] := List.length_eq_zero.mp (Nat.le_zero.mp h)
    subst h0
    rw [assembleLines_nil]
    simp
  | succ n ih =>
    intro lines hlen
    cases lines with
    | nil =>
      rw [assembleLines_nil]
      simp
    | cons l ls =>
      simp only [List.length_cons] at hlen
      by_cases hb : (strip l).isEmpty = true
      · rw [assembleLines_blank l ls hb]
        have hcount : nonBlankCount (l :: ls) = nonBlankCount ls := by
          simp [nonBlankCount, List.filter_cons, hb]
        rw [hcount]
        exact ih ls (by omega)
      · by_cases ht : tableStart (strip l) = true
        · rw [assembleLines_table l ls hb ht]
          have hc : tableCont l = true := by
            simp only [tableStart, Bool.and_eq_true] at ht
            simpa [tableCont] using ht.1
          have hsplit : nonBlankCount (l :: ls) =
              nonBlankCount ((l :: ls).takeWhile tableCont) +
                nonBlankCount ((l :: ls).dropWhile tableCont) := by
            simp only [nonBlankCount]
            conv_lhs =>
              rw [← List.takeWhile_append_dropWhile (p := tableCont)
                (l := l :: ls)]
            rw [List.filter_append, List.length_append]
          have htake : 1 ≤ nonBlankCount ((l :: ls).takeWhile tableCont) := by
            rw [List.takeWhile_cons, if_pos hc]
            simp [nonBlankCount, List.filter_cons, hb]
          have hdrop_le : ((l :: ls).dropWhile tableCont).length ≤ n := by
            rw [List.dropWhile_cons, if_pos hc]
            have := (List.dropWhile_sublist (p := tableCont) (l := ls)).length_le
            omega
          have h1 := createWordTableBlocks_len
            ((((l :: ls).takeWhile tableCont).map strip).filter
              (fun t => !(t.all isSepChar)))
          have h2 := ih ((l :: ls).dropWhile tableCont) hdrop_le
          rw [List.length_append]
          omega
        · rw [assembleLines_classify l ls hb ht]
          have hcount : nonBlankCount (l :: ls) = 1 + nonBlankCount ls := by
            simp only [nonBlankCount, List.filter_cons, hb]
            simp only [Bool.not_false, if_pos, List.length_cons]
            omega
          have h2 := ih ls (by omega)
          simp only [List.length_cons]
          omega

/-- C1 counterexample: the single non-blank line `"| a | b |"` produces
two content blocks (the table and its spacing paragraph), exceeding the
claimed bound of one block per non-blank line. -/
theorem c1_counterexample :
    ¬ (((create_word_document ("2024-01-01 00:00:00".toList)
            ("| a | b |".toList)).drop 4).length ≤
        nonBlankCount (splitChar '\n' ("| a | b |".toList))) := by
  have e : (create_word_document ("2024-01-01 00:00:00".toList)
      ("| a | b |".toList)).drop 4 =
      assembleLines (splitChar '\n' ("| a | b |".toList)) := rfl
  rw [e]
  have e2 : assembleLines (splitChar '\n' ("| a | b |".toList)) =
      [Block.table [[[(Style.bold, "a".toList)], [(Style.bold, "b".toList)]]],
       Block.para []] := by
    simp [assembleLines, splitChar, strip, startsWith, tableStart, tableCont,
      isSpaceC, List.dropWhile, List.takeWhile, createWordTableBlocks,
      create_word_table, tableData, parseCells, isSepChar, fillGrid, fillRow,
      formatCell, parse_inline_formatting, findPat, starM]
  rw [e2]
  decide

/-- C1 (amended): the assembly phase is a total function (it is modelled
here as one), and the number of content blocks — the blocks after the
four fixed preamble blocks — is at most twice the number of non-blank
lines of the input (each non-table line contributes at most one block, a
table run contributes at most two: the table and its spacing paragraph);
the empty string yields zero content blocks. -/
theorem c1_block_bound :
    (∀ ts text : List Char,
      ((create_word_document ts text).drop 4).length ≤
        2 * nonBlankCount (splitChar '\n' text)) ∧
    (∀ ts : List Char, (create_word_document ts ("".toList)).drop 4 = []) := by
  constructor
  · intro ts text
    have e : (create_word_document ts text).drop 4 =
        assembleLines (splitChar '\n' text) := rfl
    rw [e]
    exact assemble_bound (splitChar '\n' text).length _ le_rfl
  · intro ts
    have e : (create_word_document ts ("".toList)).drop 4 =
        assembleLines (splitChar '\n' ("".toList)) := rfl
    rw [e]
    have e2 : splitChar '\n' ("".toList) = [[]] := rfl
    rw [e2, assembleLines_blank [] [] (by rfl), assembleLines_nil]

/-! Claim C9: the spacing paragraph after every table. -/

theorem classifyLine_ne_table (line : List Char)
    (t : List (List (List Seg))) : classifyLine line ≠ Block.table t := by
  simp only [classifyLine]
  split_ifs <;> simp

theorem tableSpaced_nil : tableSpaced [] := by
  intro i tbl h
  simp at h

theorem tableSpaced_cons (b : Block) (bs : List Block)
    (hb : ∀ t, b ≠ Block.table t) (h : tableSpaced bs) :
    tableSpaced (b :: bs) := by
  intro i tbl hget
  match i with
  | 0 =>
    simp only [List.getElem?_cons_zero] at hget
    exact absurd ((Option.some.injEq _ _).mp hget) (hb tbl)
  | (i + 1) =>
    simp only [List.getElem?_cons_succ] at hget ⊢
    exact h i tbl hget

theorem tableSpaced_pair (t : List (List (List Seg))) (bs : List Block)
    (h : tableSpaced bs) :
    tableSpaced (Block.table t :: Block.para [] :: bs) := by
  intro i tbl hget
  match i with
  | 0 => simp
  | 1 =>
    simp only [List.getElem?_cons_succ, List.getElem?_cons_zero] at hget
    cases hget
  | (i + 2) =>
    simp only [List.getElem?_cons_succ] at hget ⊢
    exact h i tbl hget

theorem assemble_spaced : ∀ (n : Nat) (lines : List (List Char)),
    lines.length ≤ n → tableSpaced (assembleLines lines) := by
  intro n
  induction n with
  | zero =>
    intro lines h
    have h0 : lines = [] := List.length_eq_zero.mp (Nat.le_zero.mp h)
    subst h0
    rw [assembleLines_nil]
    exact tableSpaced_nil
  | succ n ih =>
    intro lines hlen
    cases lines with
    | nil =>
      rw [assembleLines_nil]
      exact tableSpaced_nil
    | cons l ls =>
      simp only [List.length_cons] at hlen
      by_cases hb : (strip l).isEmpty = true
      · rw [assembleLines_blank l ls hb]
        exact ih ls (by omega)
      · by_cases ht : tableStart (strip l) = true
        · rw [assembleLines_table l ls hb ht]
          have hc : tableCont l = true := by
            simp only [tableStart, Bool.and_eq_true] at ht
            simpa [tableCont] using ht.1
          have hdrop_le : ((l :: ls).dropWhile tableCont).length ≤ n := by
            rw [List.dropWhile_cons, if_pos hc]
            have := (List.dropWhile_sublist (p := tableCont) (l := ls)).length_le
            omega
          have hrec := ih ((l :: ls).dropWhile tableCont) hdrop_le
          cases hct : create_word_table
              ((((l :: ls).takeWhile tableCont).map strip).filter
                (fun t => !(t.all isSepChar))) with
          | none =>
            simp only [createWordTableBlocks, hct, List.nil_append]
            exact hrec
          | some tbl =>
            simp only [createWordTableBlocks, hct, List.cons_append,
              List.nil_append]
            exact tableSpaced_pair tbl _ hrec
        · rw [assembleLines_classify l ls hb ht]
          exact tableSpaced_cons _ _ (classifyLine_ne_table (strip l))
            (ih ls (by omega))

/-- C9: in every generated document, a table block is immediately
followed by an empty spacing paragraph (`doc.add_paragraph("")` at the
end of `create_word_table`), which the spec does not mention; in
particular the one-line table run `"| a | b |"` contributes two content
blocks, not one. -/
theorem c9_spacing_paragraph :
    (∀ (ts text : List Char) (i : Nat) (tbl : List (List (List Seg))),
      (create_word_document ts text)[i]? = some (Block.table tbl) →
      (create_word_document ts text)[i + 1]? = some (Block.para [])) ∧
    (create_word_document ("T".toList) ("| a | b |".toList)).drop 4 =
      [Block.table [[[(Style.bold, "a".toList)], [(Style.bold, "b".toList)]]],
       Block.para []] := by
  constructor
  · intro ts text
    have hrec := assemble_spaced (splitChar '\n' text).length
      (splitChar '\n' text) le_rfl
    have hdoc : tableSpaced (create_word_document ts text) := by
      refine tableSpaced_cons _ _ (by simp) ?_
      refine tableSpaced_cons _ _ (by simp) ?_
      refine tableSpaced_cons _ _ (by simp) ?_
      exact tableSpaced_cons _ _ (by simp) hrec
    exact hdoc
  · have e : (create_word_document ("T".toList) ("| a | b |".toList)).drop 4 =
        assembleLines (splitChar '\n' ("| a | b |".toList)) := rfl
    rw [e]
    simp [assembleLines, splitChar, strip, startsWith, tableStart, tableCont,
      isSpaceC, List.dropWhile, List.takeWhile, createWordTableBlocks,
      create_word_table, tableData, parseCells, isSepChar, fillGrid, fillRow,
      formatCell, parse_inline_formatting, findPat, starM]

/-- Witness for C9: in the document generated from `"| a | b |"`, the
table block sits at index 4 and index 5 is the empty spacing paragraph. -/
theorem c9_witness :
    (create_word_document ("T".toList) ("| a | b |".toList))[4 + 1]? =
      some (Block.para []) :=
  c9_spacing_paragraph.1 ("T".toList) ("| a | b |".toList) 4
    [[[(Style.bold, "a".toList)], [(Style.bold, "b".toList)]]]
    (by
      simp [create_word_document, preambleBlocks, assembleLines, splitChar,
        strip, startsWith, tableStart, tableCont, isSpaceC, List.dropWhile,
        List.takeWhile, createWordTableBlocks, create_word_table, tableData,
        parseCells, isSepChar, fillGrid, fillRow, formatCell,
        parse_inline_formatting, findPat, starM])
